import Mathlib

/-!
# Verification of the sworkstyle workspace-label engine

A shallow embedding of `src/lib.rs` of the `swayest_workstyle` repository:
the tree traversals (`get_workspaces_recurse`, `get_windows`), the
per-workspace label synthesis (`update_workspace_name`), and the
per-cycle driver (`update_workspaces`).

Modelling conventions:
* `swayipc_async::Node` becomes the inductive `Node`; only the fields read
  by `lib.rs` are modelled (`node_type`, `id`, `name`, `num`, `app_id`,
  `window_properties`, `nodes`, `floating_nodes`).
* Log macros (`error!`, `debug!`, ...) become an accumulated list of
  `(LogLevel, String)` entries, in emission order.
* `Result<(), SworkstyleError>` becomes `Except String`; the successful
  update additionally reports the synthesized label and the rename command
  it issued (if any), which in the source are the observable effects.
* Rust machine integers (`i32`/`i64` ids and workspace numbers) are
  modelled as `Int`; no arithmetic is performed on them, so no overflow
  reasoning is needed.
-/

/-- `swayipc_async::NodeType` restricted to the variants `lib.rs` mentions,
plus the other variants it treats uniformly (any non-matching type). -/
inductive NodeType where
  | root
  | output
  | dockarea
  | con
  | floatingCon
  | workspace
  deriving DecidableEq, Repr

/-- The `window_properties` sub-structure: `lib.rs` only reads `.class`. -/
structure WindowProperties where
  «class» : Option String
  deriving DecidableEq, Repr

/-- A layout-tree node (`swayipc_async::Node`), restricted to the fields
read by `lib.rs`. -/
inductive Node where
  | mk (node_type : NodeType) (id : Int) (name : Option String) (num : Option Int)
      (app_id : Option String) (window_properties : Option WindowProperties)
      (nodes : List Node) (floating_nodes : List Node)

def Node.node_type : Node → NodeType
  | .mk t _ _ _ _ _ _ _ => t

def Node.id : Node → Int
  | .mk _ i _ _ _ _ _ _ => i

def Node.name : Node → Option String
  | .mk _ _ nm _ _ _ _ _ => nm

def Node.num : Node → Option Int
  | .mk _ _ _ num _ _ _ _ => num

def Node.app_id : Node → Option String
  | .mk _ _ _ _ app _ _ _ => app

def Node.window_properties : Node → Option WindowProperties
  | .mk _ _ _ _ _ wp _ _ => wp

def Node.nodes : Node → List Node
  | .mk _ _ _ _ _ _ ns _ => ns

def Node.floating_nodes : Node → List Node
  | .mk _ _ _ _ _ _ _ fs => fs

mutual

/-- `get_workspaces_recurse` (lib.rs:214-223), returning the collected list
instead of pushing into a `&mut Vec`: a node whose type is `Workspace` and
whose name is not `"__i3_scratch"` is collected and its subtree skipped
(the `return`); otherwise the tiled children (`node.nodes`) are searched. -/
def get_workspaces_recurse : Node → List Node
  | n@(.mk t _ nm _ _ _ ns _) =>
    if t = NodeType.workspace ∧ nm ≠ some "__i3_scratch" then
      [n]
    else
      get_workspaces_recurse_list ns

/-- The `for child in node.nodes.iter()` loop of `get_workspaces_recurse`. -/
def get_workspaces_recurse_list : List Node → List Node
  | [] => []
  | n :: ns => get_workspaces_recurse n ++ get_workspaces_recurse_list ns

end

mutual

/-- `get_windows` (lib.rs:226-236), returning the collected list: a node of
type `FloatingCon` or `Con` whose `name` is present is collected, and the
recursion continues over `node.nodes.iter().chain(node.floating_nodes.iter())`. -/
def get_windows : Node → List Node
  | n@(.mk t _ nm _ _ _ ns fs) =>
    (if (t = NodeType.floatingCon ∨ t = NodeType.con) ∧ nm.isSome then [n] else [])
      ++ (get_windows_list ns ++ get_windows_list fs)

/-- The `for node in ...chain(...)` loop of `get_windows`. -/
def get_windows_list : List Node → List Node
  | [] => []
  | n :: ns => get_windows n ++ get_windows_list ns

end

/-- Log levels of the `log` crate macros used by `lib.rs`. -/
inductive LogLevel where
  | debug
  | info
  | warn
  | error
  deriving DecidableEq, Repr

/-- Modelled from the spec: the Config Store interface (`config.rs` is not
part of the sources under verification).  `fetch_icon(exact_identity,
fallback_title)` always returns some icon string and never fails, so the
store is modelled as a total function. -/
def Config : Type := String → Option String → String

/-- The `Sworkstyle` state (lib.rs:23-28) restricted to the fields the
update path reads; `config_path` and `inotify` only feed the IO event
loop and are not part of any synthesis claim. -/
structure Sworkstyle where
  config : Config
  deduplicate : Bool

/-- Rust's lexicographic `Ord` on strings, modelled on the list of unicode
scalar values: Rust compares UTF-8 bytes lexicographically, and UTF-8
byte order coincides with scalar-value order. -/
def cmpCharList : List Char → List Char → Ordering
  | [], [] => Ordering.eq
  | [], _ :: _ => Ordering.lt
  | _ :: _, [] => Ordering.gt
  | a :: as, b :: bs =>
    match compare a.toNat b.toNat with
    | Ordering.eq => cmpCharList as bs
    | o => o

def cmpString (a b : String) : Ordering :=
  cmpCharList a.data b.data

/-- Rust's derived `Ord` on `Option<String>`: `None` sorts before `Some`. -/
def cmpOptStr : Option String → Option String → Ordering
  | none, none => Ordering.eq
  | none, some _ => Ordering.lt
  | some _, none => Ordering.gt
  | some a, some b => cmpString a b

/-- Rust's derived `Ord` on the identity pair
`(Option<&String>, Option<String>)`: identity first, then title. -/
def cmpPair (a b : Option String × Option String) : Ordering :=
  match cmpOptStr a.1 b.1 with
  | Ordering.eq => cmpOptStr a.2 b.2
  | o => o

/-- Insertion into the strictly sorted element list of a
`BTreeSet<(Option<&String>, Option<String>)>`; an equal key leaves the
set unchanged. -/
def btreeInsert (x : Option String × Option String) :
    List (Option String × Option String) → List (Option String × Option String)
  | [] => [x]
  | y :: ys =>
    match cmpPair x y with
    | Ordering.lt => x :: y :: ys
    | Ordering.eq => y :: ys
    | Ordering.gt => y :: btreeInsert x ys

/-- `window_names.into_iter().collect::<BTreeSet<_>>().into_iter().collect()`
(lib.rs:143-147): fold the list into the set and read it back in ascending
key order. -/
def btreeCollect (l : List (Option String × Option String)) :
    List (Option String × Option String) :=
  l.foldl (fun acc x => btreeInsert x acc) []

/-- `Vec::dedup` (lib.rs:186): removes consecutive repeated elements only. -/
def dedupConsecutive : List String → List String
  | [] => []
  | [x] => [x]
  | x :: y :: rest =>
    if x = y then dedupConsecutive (y :: rest) else x :: dedupConsecutive (y :: rest)

/-- `icons.join(" ")` (lib.rs:189). -/
def joinSpace : List String → String
  | [] => ""
  | [x] => x
  | x :: y :: rest => x ++ " " ++ joinSpace (y :: rest)

/-- The `{:?}` debug rendering of an `Option<String>` as it appears inside
the log messages (inner escaping of special characters is not modelled;
no claim depends on the message text). -/
def debugOptString : Option String → String
  | none => "None"
  | some s => "Some(\"" ++ s ++ "\")"

/-- The identity-resolution closure of `update_workspace_name`
(lib.rs:123-138): start from `None`, overwrite with `app_id` when present,
then overwrite with `window_properties.class` when present, so the class
takes precedence. -/
def resolve_identity (node : Node) : Option String :=
  let exact_name : Option String := none
  let exact_name :=
    match node.app_id with
    | some app_id => some app_id
    | none => exact_name
  match node.window_properties with
  | some window_props =>
    match window_props.«class» with
    | some c => some c
    | none => exact_name
  | none => exact_name

/-- One step of the icon-fetch loop (lib.rs:152-165): an exact name is
looked up directly; a missing exact name logs an `error!` and looks up the
empty identity with the window title as fallback. -/
def fetch_icon_step (config : Config) :
    Option String × Option String → List (LogLevel × String) × String
  | (some exact_name, generic_name) => ([], config exact_name generic_name)
  | (none, generic_name) =>
    ([(LogLevel.error, "No exact name found for window with title=" ++ debugOptString generic_name)],
      config "" generic_name)

/-- `window_names` (lib.rs:121-148): the identity pair of every window of
the workspace, collapsed through the `BTreeSet` when `deduplicate` is set. -/
def Sworkstyle.window_names (self : Sworkstyle) (workspace : Node) :
    List (Option String × Option String) :=
  let pairs := (get_windows workspace).map (fun node => (resolve_identity node, node.name))
  if self.deduplicate then btreeCollect pairs else pairs

/-- The log entries emitted by the icon-fetch loop, in order. -/
def Sworkstyle.icon_logs (self : Sworkstyle) (workspace : Node) : List (LogLevel × String) :=
  ((self.window_names workspace).map (fun p => (fetch_icon_step self.config p).1)).flatten

/-- `format!("\u{202D}{icon}\u{202C}")` (lib.rs:168). -/
def wrap_icon (icon : String) : String :=
  "\u202D" ++ icon ++ "\u202C"

/-- The fetched icons wrapped in the directional-override marks
(lib.rs:150-169). -/
def Sworkstyle.wrapped_icons (self : Sworkstyle) (workspace : Node) : List String :=
  (self.window_names workspace).map (fun p => wrap_icon (fetch_icon_step self.config p).2)

/-- The icon list as it enters the join: `icons.dedup()` is applied first
when `deduplicate` is set (lib.rs:185-187). -/
def Sworkstyle.rendered_icons (self : Sworkstyle) (workspace : Node) : List String :=
  if self.deduplicate then dedupConsecutive (self.wrapped_icons workspace)
  else self.wrapped_icons workspace

/-- `update_workspace_name` (lib.rs:113-211) as a pure function.  The
returned pair is (log entries in emission order, either the error value or
`(new_name, rename command issued if any)`).  The icon loop and its logs
run before the `workspace.name` / `workspace.num` checks, exactly as in
the source; the rename command is sent only when the name differs. -/
def Sworkstyle.update_workspace_name (self : Sworkstyle) (workspace : Node) :
    List (LogLevel × String) × Except String (String × Option String) :=
  let logs := self.icon_logs workspace
  match workspace.name with
  | none =>
    (logs, Except.error ("Could not get name for workspace with id: " ++ toString workspace.id))
  | some name =>
    match workspace.num with
    | none => (logs, Except.error ("Could not fetch index for: " ++ name))
    | some index =>
      let icons := self.rendered_icons workspace
      let joined := joinSpace icons
      let icons_str := if joined.length > 0 then joined ++ " " else joined
      let branch : List (LogLevel × String) × String :=
        if icons_str.length > 0 then
          ([], toString index ++ ": " ++ icons_str)
        else
          match workspace.num with
          | some num => ([], toString num)
          | none =>
            ([(LogLevel.error, "Could not fetch workspace num for: " ++ debugOptString workspace.name)],
              " ")
      let new_name := branch.2
      if name ≠ new_name then
        (logs ++ branch.1
            ++ [(LogLevel.debug, "rename workspace \"" ++ name ++ "\" to \"" ++ new_name ++ "\"")],
          Except.ok (new_name, some ("rename workspace \"" ++ name ++ "\" to \"" ++ new_name ++ "\"")))
      else
        (logs ++ branch.1, Except.ok (new_name, none))

/-- The `for workspace in workspaces` loop of `update_workspaces`
(lib.rs:106-108): the `?` on each `update_workspace_name` propagates the
first error.  Returns (logs, rename commands actually issued, final
result). -/
def Sworkstyle.update_workspaces_go (self : Sworkstyle) :
    List Node → List (LogLevel × String) × List String × Except String Unit
  | [] => ([], [], Except.ok ())
  | ws :: rest =>
    match self.update_workspace_name ws with
    | (logs, Except.error e) => (logs, [], Except.error e)
    | (logs, Except.ok (_, cmd)) =>
      let r := self.update_workspaces_go rest
      (logs ++ r.1, cmd.toList ++ r.2.1, r.2.2)

/-- `update_workspaces` (lib.rs:100-111): extract the workspaces of the
snapshot and update each in order, stopping at the first error. -/
def Sworkstyle.update_workspaces (self : Sworkstyle) (tree : Node) :
    List (LogLevel × String) × List String × Except String Unit :=
  self.update_workspaces_go (get_workspaces_recurse tree)

/-! ## Infrastructure: induction over the nested tree type -/

mutual

/-- Induction principle for `Node` exposing the child lists through
membership hypotheses. -/
theorem Node.recMem {motive : Node → Prop}
    (h : ∀ t i nm num app wp ns fs,
        (∀ c ∈ ns, motive c) → (∀ c ∈ fs, motive c) →
        motive (.mk t i nm num app wp ns fs)) :
    ∀ n, motive n
  | .mk t i nm num app wp ns fs =>
    h t i nm num app wp ns fs (Node.recMemList h ns) (Node.recMemList h fs)

theorem Node.recMemList {motive : Node → Prop}
    (h : ∀ t i nm num app wp ns fs,
        (∀ c ∈ ns, motive c) → (∀ c ∈ fs, motive c) →
        motive (.mk t i nm num app wp ns fs)) :
    ∀ l : List Node, ∀ c ∈ l, motive c
  | n :: _, _, List.Mem.head _ => Node.recMem h n
  | _ :: ns, c, List.Mem.tail _ h2 => Node.recMemList h ns c h2

end

theorem get_workspaces_recurse_list_eq (l : List Node) :
    get_workspaces_recurse_list l = l.flatMap get_workspaces_recurse := by
  induction l with
  | nil => rfl
  | cons n ns ih => simp [get_workspaces_recurse_list, ih]

theorem get_windows_list_eq (l : List Node) :
    get_windows_list l = l.flatMap get_windows := by
  induction l with
  | nil => rfl
  | cons n ns ih => simp [get_windows_list, ih]

mutual

/-- Spec-side definition (claim C9): every node reachable from `n` through
tiled (`nodes`) edges only, in pre-order. -/
def tiled_nodes : Node → List Node
  | n@(.mk _ _ _ _ _ _ ns _) => n :: tiled_nodes_list ns

def tiled_nodes_list : List Node → List Node
  | [] => []
  | n :: ns => tiled_nodes n ++ tiled_nodes_list ns

end

theorem tiled_nodes_list_eq (l : List Node) :
    tiled_nodes_list l = l.flatMap tiled_nodes := by
  induction l with
  | nil => rfl
  | cons n ns ih => simp [tiled_nodes_list, ih]

mutual

/-- Spec-side definition (claim C3): depth-first pre-order listing of the
whole subtree, tiled children before floating children at every level. -/
def dfs_nodes : Node → List Node
  | n@(.mk _ _ _ _ _ _ ns fs) => n :: (dfs_nodes_list ns ++ dfs_nodes_list fs)

def dfs_nodes_list : List Node → List Node
  | [] => []
  | n :: ns => dfs_nodes n ++ dfs_nodes_list ns

end

theorem dfs_nodes_list_eq (l : List Node) :
    dfs_nodes_list l = l.flatMap dfs_nodes := by
  induction l with
  | nil => rfl
  | cons n ns ih => simp [dfs_nodes_list, ih]

/-- The collection predicate of `get_windows` (claim C3, amended): node type
`FloatingCon` or `Con` and a present name. -/
def window_filter (m : Node) : Bool :=
  decide ((m.node_type = NodeType.floatingCon ∨ m.node_type = NodeType.con) ∧ m.name.isSome)

/-! ## Traversal lemmas -/

theorem mem_get_workspaces_recurse (m : Node) :
    ∀ root, m ∈ get_workspaces_recurse root →
      m.node_type = NodeType.workspace ∧ m.name ≠ some "__i3_scratch" := by
  intro root
  induction root using Node.recMem with
  | h t i nm num app wp ns fs ihn ihf =>
    intro hm
    rw [get_workspaces_recurse] at hm
    by_cases hq : t = NodeType.workspace ∧ nm ≠ some "__i3_scratch"
    · rw [if_pos hq] at hm
      rcases List.mem_singleton.mp hm with rfl
      exact hq
    · rw [if_neg hq, get_workspaces_recurse_list_eq] at hm
      rcases List.mem_flatMap.mp hm with ⟨c, hc, hmc⟩
      exact ihn c hc hmc

theorem get_workspaces_recurse_stop (n : Node)
    (hq : n.node_type = NodeType.workspace ∧ n.name ≠ some "__i3_scratch") :
    get_workspaces_recurse n = [n] := by
  cases n with
  | mk t i nm num app wp ns fs =>
    simp only [Node.node_type, Node.name] at hq
    rw [get_workspaces_recurse, if_pos hq]

theorem get_workspaces_recurse_descend (n : Node)
    (hq : ¬(n.node_type = NodeType.workspace ∧ n.name ≠ some "__i3_scratch")) :
    get_workspaces_recurse n = n.nodes.flatMap get_workspaces_recurse := by
  cases n with
  | mk t i nm num app wp ns fs =>
    simp only [Node.node_type, Node.name] at hq
    rw [get_workspaces_recurse, if_neg hq, get_workspaces_recurse_list_eq]
    rfl

theorem get_workspaces_recurse_subset_tiled (m : Node) :
    ∀ root, m ∈ get_workspaces_recurse root → m ∈ tiled_nodes root := by
  intro root
  induction root using Node.recMem with
  | h t i nm num app wp ns fs ihn ihf =>
    intro hm
    rw [get_workspaces_recurse] at hm
    rw [tiled_nodes, tiled_nodes_list_eq]
    by_cases hq : t = NodeType.workspace ∧ nm ≠ some "__i3_scratch"
    · rw [if_pos hq] at hm
      rcases List.mem_singleton.mp hm with rfl
      exact List.mem_cons_self _ _
    · rw [if_neg hq, get_workspaces_recurse_list_eq] at hm
      rcases List.mem_flatMap.mp hm with ⟨c, hc, hmc⟩
      exact List.mem_cons_of_mem _ (List.mem_flatMap.mpr ⟨c, hc, ihn c hc hmc⟩)

theorem get_windows_eq_filter :
    ∀ n, get_windows n = (dfs_nodes n).filter window_filter := by
  intro n
  induction n using Node.recMem with
  | h t i nm num app wp ns fs ihn ihf =>
    have aux : ∀ l : List Node,
        (∀ c ∈ l, get_windows c = (dfs_nodes c).filter window_filter) →
        get_windows_list l = (dfs_nodes_list l).filter window_filter := by
      intro l hl
      induction l with
      | nil => rfl
      | cons a as ihas =>
        rw [get_windows_list, dfs_nodes_list, List.filter_append,
          hl a (List.mem_cons_self _ _),
          ihas (fun c hc => hl c (List.mem_cons_of_mem _ hc))]
    rw [get_windows, dfs_nodes, List.filter_cons, List.filter_append,
      aux ns ihn, aux fs ihf]
    by_cases hq : (t = NodeType.floatingCon ∨ t = NodeType.con) ∧ (nm : Option String).isSome
    · rw [if_pos hq]
      have : window_filter (Node.mk t i nm num app wp ns fs) = true := by
        simpa [window_filter, Node.node_type, Node.name] using hq
      simp [this]
    · rw [if_neg hq]
      have : window_filter (Node.mk t i nm num app wp ns fs) = false := by
        simpa [window_filter, Node.node_type, Node.name] using hq
      simp [this]

/-! ## Ordering lemmas for the `BTreeSet` model -/

theorem char_toNat_inj {a b : Char} (h : a.toNat = b.toNat) : a = b :=
  Char.ext (UInt32.ext h)

theorem cmpCharList_eq_iff : ∀ a b : List Char, cmpCharList a b = Ordering.eq ↔ a = b := by
  intro a
  induction a with
  | nil => intro b; cases b <;> simp [cmpCharList]
  | cons x xs ih =>
    intro b
    cases b with
    | nil => simp [cmpCharList]
    | cons y ys =>
      cases h : compare x.toNat y.toNat with
      | lt =>
        simp only [cmpCharList, h, List.cons.injEq]
        constructor
        · intro habs; simp at habs
        · rintro ⟨rfl, rfl⟩; simp [Nat.compare_eq_lt] at h
      | eq =>
        have hxy : x = y := char_toNat_inj (Nat.compare_eq_eq.mp h)
        subst hxy
        simp [cmpCharList, h, List.cons.injEq, ih ys]
      | gt =>
        simp only [cmpCharList, h, List.cons.injEq]
        constructor
        · intro habs; simp at habs
        · rintro ⟨rfl, rfl⟩; simp [Nat.compare_eq_gt] at h

theorem cmpCharList_gt_iff : ∀ a b : List Char,
    cmpCharList a b = Ordering.gt ↔ cmpCharList b a = Ordering.lt := by
  intro a
  induction a with
  | nil => intro b; cases b <;> simp [cmpCharList]
  | cons x xs ih =>
    intro b
    cases b with
    | nil => simp [cmpCharList]
    | cons y ys =>
      cases h : compare x.toNat y.toNat with
      | lt =>
        have h2 : compare y.toNat x.toNat = Ordering.gt :=
          Nat.compare_eq_gt.mpr (Nat.compare_eq_lt.mp h)
        simp [cmpCharList, h, h2]
      | eq =>
        have h2 : compare y.toNat x.toNat = Ordering.eq :=
          Nat.compare_eq_eq.mpr (Nat.compare_eq_eq.mp h).symm
        simp [cmpCharList, h, h2, ih ys]
      | gt =>
        have h2 : compare y.toNat x.toNat = Ordering.lt :=
          Nat.compare_eq_lt.mpr (Nat.compare_eq_gt.mp h)
        simp [cmpCharList, h, h2]

theorem cmpCharList_lt_trans : ∀ a b c : List Char,
    cmpCharList a b = Ordering.lt → cmpCharList b c = Ordering.lt →
    cmpCharList a c = Ordering.lt := by
  intro a
  induction a with
  | nil =>
    intro b c h1 h2
    cases b with
    | nil => simp [cmpCharList] at h1
    | cons y ys =>
      cases c with
      | nil => simp [cmpCharList] at h2
      | cons z zs => simp [cmpCharList]
  | cons x xs ih =>
    intro b c h1 h2
    cases b with
    | nil => simp [cmpCharList] at h1
    | cons y ys =>
      cases c with
      | nil => simp [cmpCharList] at h2
      | cons z zs =>
        cases hxy : compare x.toNat y.toNat with
        | gt => simp [cmpCharList, hxy] at h1
        | lt =>
          simp only [cmpCharList, hxy] at h1
          cases hyz : compare y.toNat z.toNat with
          | gt => simp [cmpCharList, hyz] at h2
          | lt =>
            have : compare x.toNat z.toNat = Ordering.lt :=
              Nat.compare_eq_lt.mpr
                (Nat.lt_trans (Nat.compare_eq_lt.mp hxy) (Nat.compare_eq_lt.mp hyz))
            simp [cmpCharList, this]
          | eq =>
            have : compare x.toNat z.toNat = Ordering.lt := by
              rw [Nat.compare_eq_lt, ← Nat.compare_eq_eq.mp hyz]
              exact Nat.compare_eq_lt.mp hxy
            simp [cmpCharList, this]
        | eq =>
          simp only [cmpCharList, hxy] at h1
          cases hyz : compare y.toNat z.toNat with
          | gt => simp [cmpCharList, hyz] at h2
          | lt =>
            simp only [cmpCharList, hyz] at h2
            have : compare x.toNat z.toNat = Ordering.lt := by
              rw [Nat.compare_eq_lt, Nat.compare_eq_eq.mp hxy]
              exact Nat.compare_eq_lt.mp hyz
            simp [cmpCharList, this]
          | eq =>
            simp only [cmpCharList, hyz] at h2
            have : compare x.toNat z.toNat = Ordering.eq := by
              rw [Nat.compare_eq_eq, Nat.compare_eq_eq.mp hxy]
              exact Nat.compare_eq_eq.mp hyz
            simp only [cmpCharList, this]
            exact ih ys zs h1 h2

theorem cmpString_eq_iff (a b : String) : cmpString a b = Ordering.eq ↔ a = b := by
  rw [cmpString, cmpCharList_eq_iff, String.ext_iff]

theorem cmpString_gt_iff (a b : String) :
    cmpString a b = Ordering.gt ↔ cmpString b a = Ordering.lt :=
  cmpCharList_gt_iff a.data b.data

theorem cmpString_lt_trans {a b c : String} (h1 : cmpString a b = Ordering.lt)
    (h2 : cmpString b c = Ordering.lt) : cmpString a c = Ordering.lt :=
  cmpCharList_lt_trans a.data b.data c.data h1 h2

theorem cmpOptStr_eq_iff : ∀ a b : Option String, cmpOptStr a b = Ordering.eq ↔ a = b := by
  intro a b
  cases a <;> cases b <;> simp [cmpOptStr, cmpString_eq_iff]

theorem cmpOptStr_gt_iff : ∀ a b : Option String,
    cmpOptStr a b = Ordering.gt ↔ cmpOptStr b a = Ordering.lt := by
  intro a b
  cases a <;> cases b <;> simp [cmpOptStr, cmpString_gt_iff]

theorem cmpOptStr_lt_trans : ∀ {a b c : Option String},
    cmpOptStr a b = Ordering.lt → cmpOptStr b c = Ordering.lt →
    cmpOptStr a c = Ordering.lt := by
  intro a b c h1 h2
  cases a <;> cases b <;> cases c <;> simp_all [cmpOptStr]
  exact cmpString_lt_trans h1 h2

theorem cmpPair_eq_iff (a b : Option String × Option String) :
    cmpPair a b = Ordering.eq ↔ a = b := by
  cases h : cmpOptStr a.1 b.1 with
  | lt =>
    simp only [cmpPair, h]
    constructor
    · intro habs; simp at habs
    · rintro rfl
      have h2 := (cmpOptStr_eq_iff a.1 a.1).mpr rfl
      simp_all
  | eq =>
    have h1 : a.1 = b.1 := (cmpOptStr_eq_iff _ _).mp h
    simp only [cmpPair, h, cmpOptStr_eq_iff, Prod.ext_iff]
    simp [h1]
  | gt =>
    simp only [cmpPair, h]
    constructor
    · intro habs; simp at habs
    · rintro rfl
      have h2 := (cmpOptStr_eq_iff a.1 a.1).mpr rfl
      simp_all

theorem cmpPair_gt_iff (a b : Option String × Option String) :
    cmpPair a b = Ordering.gt ↔ cmpPair b a = Ordering.lt := by
  cases h : cmpOptStr a.1 b.1 with
  | lt =>
    have h2 : cmpOptStr b.1 a.1 = Ordering.gt := (cmpOptStr_gt_iff _ _).mpr h
    simp [cmpPair, h, h2]
  | eq =>
    have h2 : cmpOptStr b.1 a.1 = Ordering.eq :=
      (cmpOptStr_eq_iff _ _).mpr ((cmpOptStr_eq_iff _ _).mp h).symm
    simp [cmpPair, h, h2, cmpOptStr_gt_iff]
  | gt =>
    have h2 : cmpOptStr b.1 a.1 = Ordering.lt := (cmpOptStr_gt_iff _ _).mp h
    simp [cmpPair, h, h2]

theorem cmpPair_lt_trans {a b c : Option String × Option String}
    (h1 : cmpPair a b = Ordering.lt) (h2 : cmpPair b c = Ordering.lt) :
    cmpPair a c = Ordering.lt := by
  cases hab : cmpOptStr a.1 b.1 with
  | gt => simp [cmpPair, hab] at h1
  | lt =>
    cases hbc : cmpOptStr b.1 c.1 with
    | gt => simp [cmpPair, hbc] at h2
    | lt => simp [cmpPair, cmpOptStr_lt_trans hab hbc]
    | eq =>
      have : cmpOptStr a.1 c.1 = Ordering.lt := by
        rw [← (cmpOptStr_eq_iff _ _).mp hbc]; exact hab
      simp [cmpPair, this]
  | eq =>
    simp only [cmpPair, hab] at h1
    cases hbc : cmpOptStr b.1 c.1 with
    | gt => simp [cmpPair, hbc] at h2
    | lt =>
      have : cmpOptStr a.1 c.1 = Ordering.lt := by
        rw [(cmpOptStr_eq_iff _ _).mp hab]; exact hbc
      simp [cmpPair, this]
    | eq =>
      simp only [cmpPair, hbc] at h2
      have : cmpOptStr a.1 c.1 = Ordering.eq := by
        rw [(cmpOptStr_eq_iff _ _).mp hab]; exact hbc
      simp only [cmpPair, this]
      exact cmpOptStr_lt_trans h1 h2

theorem mem_btreeInsert (x a : Option String × Option String) :
    ∀ l, a ∈ btreeInsert x l ↔ a = x ∨ a ∈ l := by
  intro l
  induction l with
  | nil => simp [btreeInsert]
  | cons y ys ih =>
    cases h : cmpPair x y with
    | lt => simp [btreeInsert, h, List.mem_cons]
    | eq =>
      have hxy : x = y := (cmpPair_eq_iff x y).mp h
      subst hxy
      simp only [btreeInsert, h, List.mem_cons]
      constructor
      · intro hm; exact Or.inr hm
      · rintro (rfl | hm) <;> simp_all
    | gt =>
      simp only [btreeInsert, h, List.mem_cons, ih]
      tauto

theorem pairwise_btreeInsert (x : Option String × Option String) :
    ∀ l, List.Pairwise (fun a b => cmpPair a b = Ordering.lt) l →
      List.Pairwise (fun a b => cmpPair a b = Ordering.lt) (btreeInsert x l) := by
  intro l
  induction l with
  | nil => simp [btreeInsert]
  | cons y ys ih =>
    intro hp
    rcases List.pairwise_cons.mp hp with ⟨hy, hys⟩
    cases h : cmpPair x y with
    | lt =>
      rw [btreeInsert, h]
      refine List.pairwise_cons.mpr ⟨?_, hp⟩
      intro a ha
      rcases List.mem_cons.mp ha with rfl | ha
      · exact h
      · exact cmpPair_lt_trans h (hy a ha)
    | eq => rw [btreeInsert, h]; exact hp
    | gt =>
      rw [btreeInsert, h]
      refine List.pairwise_cons.mpr ⟨?_, ih hys⟩
      intro a ha
      rcases (mem_btreeInsert x a ys).mp ha with rfl | ha
      · exact (cmpPair_gt_iff _ _).mp h
      · exact hy a ha

theorem mem_btreeCollect (a : Option String × Option String) (l : List (Option String × Option String)) :
    a ∈ btreeCollect l ↔ a ∈ l := by
  have aux : ∀ (l acc : List (Option String × Option String)),
      a ∈ l.foldl (fun acc x => btreeInsert x acc) acc ↔ a ∈ acc ∨ a ∈ l := by
    intro l
    induction l with
    | nil => simp
    | cons x xs ih =>
      intro acc
      rw [List.foldl_cons, ih (btreeInsert x acc), mem_btreeInsert]
      simp [List.mem_cons]
      tauto
  rw [btreeCollect, aux]
  simp

theorem pairwise_btreeCollect (l : List (Option String × Option String)) :
    List.Pairwise (fun a b => cmpPair a b = Ordering.lt) (btreeCollect l) := by
  have aux : ∀ (l acc : List (Option String × Option String)),
      List.Pairwise (fun a b => cmpPair a b = Ordering.lt) acc →
      List.Pairwise (fun a b => cmpPair a b = Ordering.lt)
        (l.foldl (fun acc x => btreeInsert x acc) acc) := by
    intro l
    induction l with
    | nil => intro acc h; simpa using h
    | cons x xs ih =>
      intro acc h
      rw [List.foldl_cons]
      exact ih (btreeInsert x acc) (pairwise_btreeInsert x acc h)
  exact aux l [] List.Pairwise.nil

/-! ## Lemmas about icon rendering -/

theorem mem_dedupConsecutive : ∀ (l : List String) (x : String),
    x ∈ dedupConsecutive l → x ∈ l
  | [], _, h => h
  | [_], _, h => h
  | a :: b :: rest, x, h => by
    rw [dedupConsecutive] at h
    by_cases hab : a = b
    · rw [if_pos hab] at h
      exact List.mem_cons_of_mem _ (mem_dedupConsecutive (b :: rest) x h)
    · rw [if_neg hab] at h
      rcases List.mem_cons.mp h with rfl | h
      · exact List.mem_cons_self _ _
      · exact List.mem_cons_of_mem _ (mem_dedupConsecutive (b :: rest) x h)

theorem head_dedupConsecutive : ∀ (x : String) (l : List String),
    ∃ tl, dedupConsecutive (x :: l) = x :: tl
  | _, [] => ⟨[], rfl⟩
  | x, y :: rest => by
    rw [dedupConsecutive]
    by_cases hxy : x = y
    · rw [if_pos hxy]
      subst hxy
      exact head_dedupConsecutive x rest
    · rw [if_neg hxy]
      exact ⟨dedupConsecutive (y :: rest), rfl⟩

theorem chain_ne_dedupConsecutive : ∀ l : List String,
    List.Chain' (fun a b => a ≠ b) (dedupConsecutive l)
  | [] => by simp [dedupConsecutive]
  | [x] => by simp [dedupConsecutive]
  | a :: b :: rest => by
    rw [dedupConsecutive]
    by_cases hab : a = b
    · rw [if_pos hab]
      exact chain_ne_dedupConsecutive (b :: rest)
    · rw [if_neg hab]
      obtain ⟨tl, htl⟩ := head_dedupConsecutive b rest
      rw [htl]
      refine List.chain'_cons.mpr ⟨hab, ?_⟩
      rw [← htl]
      exact chain_ne_dedupConsecutive (b :: rest)

theorem string_length_pos_iff (s : String) : 0 < s.length ↔ s ≠ "" := by
  cases s with
  | mk data =>
    constructor
    · intro h heq
      rw [heq] at h
      simp at h
    · intro h
      rcases data with _ | ⟨c, cs⟩
      · exact absurd rfl h
      · simp [String.length]

theorem wrap_icon_ne_empty (icon : String) : wrap_icon icon ≠ "" := by
  intro h
  have hl := congrArg String.length h
  rw [wrap_icon, String.length_append, String.length_append] at hl
  have h1 : ("‭" : String).length = 1 := rfl
  have h2 : ("‬" : String).length = 1 := rfl
  have h0 : ("" : String).length = 0 := rfl
  omega

theorem mem_wrapped_icons_ne_empty (s : Sworkstyle) (ws : Node) :
    ∀ x ∈ s.wrapped_icons ws, x ≠ "" := by
  intro x hx
  rw [Sworkstyle.wrapped_icons] at hx
  rcases List.mem_map.mp hx with ⟨p, _, hp⟩
  rw [← hp]
  exact wrap_icon_ne_empty _

theorem mem_rendered_icons_ne_empty (s : Sworkstyle) (ws : Node) :
    ∀ x ∈ s.rendered_icons ws, x ≠ "" := by
  intro x hx
  rw [Sworkstyle.rendered_icons] at hx
  by_cases hd : s.deduplicate <;> simp only [hd, if_true, if_false, Bool.false_eq_true] at hx
  · exact mem_wrapped_icons_ne_empty s ws x (mem_dedupConsecutive _ _ hx)
  · exact mem_wrapped_icons_ne_empty s ws x hx

theorem joinSpace_eq_empty_iff : ∀ l : List String, (∀ x ∈ l, x ≠ "") →
    (joinSpace l = "" ↔ l = [])
  | [] => fun _ => by simp [joinSpace]
  | [x] => fun h => by
    rw [joinSpace]
    simp only [List.cons_ne_nil, iff_false]
    exact h x (List.mem_singleton.mpr rfl)
  | x :: y :: rest => fun _ => by
    rw [joinSpace]
    constructor
    · intro habs
      exfalso
      have hl := congrArg String.length habs
      rw [String.length_append, String.length_append] at hl
      have h1 : (" " : String).length = 1 := rfl
      have h0 : ("" : String).length = 0 := rfl
      omega
    · intro habs
      exact absurd habs (List.cons_ne_nil _ _)

/-- The candidate label in the canonical form the spec describes
(§3 "Label", §4.2 steps 6-8): bare index when no icon survives rendering,
otherwise the index, a colon-space, the icons joined by single spaces, and
one trailing space. -/
def candidate_label (self : Sworkstyle) (workspace : Node) (index : Int) : String :=
  if self.rendered_icons workspace = [] then toString index
  else toString index ++ ": " ++ joinSpace (self.rendered_icons workspace) ++ " "

/-- The rename command text (lib.rs:204-206). -/
def rename_cmd (old new : String) : String :=
  "rename workspace \"" ++ old ++ "\" to \"" ++ new ++ "\""

theorem update_workspace_name_ok (s : Sworkstyle) (ws : Node) (curr : String) (idx : Int)
    (h1 : ws.name = some curr) (h2 : ws.num = some idx) :
    s.update_workspace_name ws =
      (s.icon_logs ws ++ (if curr = candidate_label s ws idx then []
          else [(LogLevel.debug, rename_cmd curr (candidate_label s ws idx))]),
        Except.ok (candidate_label s ws idx,
          if curr = candidate_label s ws idx then none
          else some (rename_cmd curr (candidate_label s ws idx)))) := by
  cases ws with
  | mk t i nm num app wp ns fs =>
    simp only [Node.name] at h1
    simp only [Node.num] at h2
    subst h1
    subst h2
    by_cases hren : s.rendered_icons (Node.mk t i (some curr) (some idx) app wp ns fs) = []
    · have hj : joinSpace (s.rendered_icons (Node.mk t i (some curr) (some idx) app wp ns fs)) = "" := by
        rw [hren]
        rfl
      simp only [Sworkstyle.update_workspace_name, Node.name, Node.num, candidate_label,
        rename_cmd, hren, hj, if_pos rfl]
      have h0 : ("" : String).length = 0 := rfl
      simp only [joinSpace, h0, gt_iff_lt, lt_self_iff_false, if_false, if_true, ite_not]
      by_cases hc : curr = toString idx <;> simp [hc]
    · have hne : joinSpace (s.rendered_icons (Node.mk t i (some curr) (some idx) app wp ns fs)) ≠ "" := by
        intro habs
        exact hren ((joinSpace_eq_empty_iff _ (mem_rendered_icons_ne_empty s _)).mp habs)
      have hpos : (joinSpace (s.rendered_icons (Node.mk t i (some curr) (some idx) app wp ns fs))).length > 0 :=
        (string_length_pos_iff _).mpr hne
      have hpos2 : ((joinSpace (s.rendered_icons (Node.mk t i (some curr) (some idx) app wp ns fs)) ++ " ")).length > 0 := by
        rw [String.length_append]
        omega
      simp only [Sworkstyle.update_workspace_name, Node.name, Node.num, candidate_label,
        rename_cmd, if_neg hren, if_pos hpos, if_pos hpos2]
      rw [← String.append_assoc]
      simp only [ite_not]
      by_cases hc : curr = toString idx ++ ": " ++ joinSpace (s.rendered_icons (Node.mk t i (some curr) (some idx) app wp ns fs)) ++ " "
      · simp only [if_pos hc, List.append_nil]
      · simp only [if_neg hc, List.append_nil]

/-- `update_workspace_name` on a workspace with no name: the icon logs are
still emitted, then the error of lib.rs:173-177 is returned. -/
theorem update_workspace_name_no_name (s : Sworkstyle) (ws : Node) (h1 : ws.name = none) :
    s.update_workspace_name ws =
      (s.icon_logs ws,
        Except.error ("Could not get name for workspace with id: " ++ toString ws.id)) := by
  cases ws with
  | mk t i nm num app wp ns fs =>
    simp only [Node.name] at h1
    subst h1
    simp [Sworkstyle.update_workspace_name, Node.name, Node.id]

/-- `update_workspace_name` on a named workspace with no number: the icon
logs are still emitted, then the error of lib.rs:180-183 is returned. -/
theorem update_workspace_name_no_num (s : Sworkstyle) (ws : Node) (curr : String)
    (h1 : ws.name = some curr) (h2 : ws.num = none) :
    s.update_workspace_name ws =
      (s.icon_logs ws, Except.error ("Could not fetch index for: " ++ curr)) := by
  cases ws with
  | mk t i nm num app wp ns fs =>
    simp only [Node.name] at h1
    simp only [Node.num] at h2
    subst h1
    subst h2
    simp [Sworkstyle.update_workspace_name, Node.name, Node.num]

/-- A successful `update_workspace_name` presupposes a present name and a
present number. -/
theorem update_workspace_name_ok_inv (s : Sworkstyle) (ws : Node) (lbl : String)
    (cmd : Option String) (h : (s.update_workspace_name ws).2 = Except.ok (lbl, cmd)) :
    ∃ curr idx, ws.name = some curr ∧ ws.num = some idx := by
  cases hn : ws.name with
  | none => rw [update_workspace_name_no_name s ws hn] at h; simp at h
  | some curr =>
    cases hm : ws.num with
    | none => rw [update_workspace_name_no_num s ws curr hn hm] at h; simp at h
    | some idx => exact ⟨curr, idx, rfl, rfl⟩

/-! ## The integer rendering never produces a space -/

theorem digitChar_ne_space (n : Nat) : Nat.digitChar n ≠ ' ' := by
  by_cases h : n < 16
  · interval_cases n <;> decide
  · have h16 : Nat.digitChar n = '*' := by
      unfold Nat.digitChar
      rw [if_neg (show ¬n = 0 by omega)]
      rw [if_neg (show ¬n = 1 by omega)]
      rw [if_neg (show ¬n = 2 by omega)]
      rw [if_neg (show ¬n = 3 by omega)]
      rw [if_neg (show ¬n = 4 by omega)]
      rw [if_neg (show ¬n = 5 by omega)]
      rw [if_neg (show ¬n = 6 by omega)]
      rw [if_neg (show ¬n = 7 by omega)]
      rw [if_neg (show ¬n = 8 by omega)]
      rw [if_neg (show ¬n = 9 by omega)]
      rw [if_neg (show ¬n = 10 by omega)]
      rw [if_neg (show ¬n = 11 by omega)]
      rw [if_neg (show ¬n = 12 by omega)]
      rw [if_neg (show ¬n = 13 by omega)]
      rw [if_neg (show ¬n = 14 by omega)]
      rw [if_neg (show ¬n = 15 by omega)]
    rw [h16]
    decide

theorem toDigitsCore_chars (b : Nat) : ∀ (f n : Nat) (ds : List Char),
    (∀ c ∈ ds, c ≠ ' ') → ∀ c ∈ Nat.toDigitsCore b f n ds, c ≠ ' ' := by
  intro f
  induction f with
  | zero =>
    intro n ds hds
    simpa [Nat.toDigitsCore] using hds
  | succ f ih =>
    intro n ds hds c hc
    simp only [Nat.toDigitsCore] at hc
    split at hc
    · rcases List.mem_cons.mp hc with rfl | hcds
      · exact digitChar_ne_space _
      · exact hds c hcds
    · refine ih (n / b) (Nat.digitChar (n % b) :: ds) ?_ c hc
      intro d hd
      rcases List.mem_cons.mp hd with rfl | hdds
      · exact digitChar_ne_space _
      · exact hds d hdds

theorem nat_repr_ne_space (n : Nat) : Nat.repr n ≠ " " := by
  intro h
  rw [Nat.repr] at h
  have hdata : Nat.toDigits 10 n = [' '] := by
    have hd := congrArg String.data h
    have hsp : (" " : String).data = [' '] := rfl
    rw [hsp] at hd
    simpa [List.asString] using hd
  have hsp2 : ' ' ∈ Nat.toDigits 10 n := by
    rw [hdata]
    exact List.mem_singleton.mpr rfl
  rw [Nat.toDigits] at hsp2
  exact toDigitsCore_chars 10 (n + 1) n [] (by simp) ' ' hsp2 rfl

theorem int_toString_ne_space (i : Int) : toString i ≠ " " := by
  cases i with
  | ofNat n => exact nat_repr_ne_space n
  | negSucc n =>
    intro h
    have hd := congrArg String.data h
    have hminus : ("-" : String).data = ['-'] := rfl
    have hsp : (" " : String).data = [' '] := rfl
    rw [show (toString (Int.negSucc n)) = "-" ++ toString (n + 1) from rfl,
      String.data_append, hminus, hsp] at hd
    simp only [List.cons_append, List.nil_append, List.cons.injEq] at hd
    exact absurd hd.1 (by decide)

theorem candidate_label_ne_space (s : Sworkstyle) (ws : Node) (idx : Int) :
    candidate_label s ws idx ≠ " " := by
  rw [candidate_label]
  split
  · exact int_toString_ne_space idx
  · intro h
    have hl := congrArg String.length h
    rw [String.length_append, String.length_append, String.length_append] at hl
    have h1 : (" " : String).length = 1 := rfl
    have h2 : (": " : String).length = 2 := rfl
    rw [h1, h2] at hl
    omega

/-! ## Concrete example data -/

/-- A config store mapping identity `"firefox"` to the fox glyph. -/
def ff_config : Config := fun exact _ => if exact = "firefox" then "🦊" else "?"

def ff_sworkstyle : Sworkstyle := ⟨ff_config, false⟩

def ff_window : Node := .mk .con 2 (some "Mozilla Firefox") none (some "firefox") none [] []

def ff_workspace : Node := .mk .workspace 1 (some "1") (some 1) none none [ff_window] []

/-- A config store returning the same glyph for everything. -/
def plain_sworkstyle : Sworkstyle := ⟨fun _ _ => "X", false⟩

def empty3_ws : Node := .mk .workspace 3 (some "3") (some 3) none none [] []

def no_num_ws : Node := .mk .workspace 9 (some "foo") none none none [] []

def no_name_ws : Node := .mk .workspace 10 none (some 1) none none [] []

def second_ws : Node := .mk .workspace 11 (some "sec") (some 2) none none
  [.mk .con 12 (some "Mozilla Firefox") none (some "firefox") none [] []] []

def two_ws_root : Node := .mk .root 0 none none none none [no_name_ws, second_ws] []

def code_config : Config := fun exact _ => if exact = "code" then "C" else "?"

def code_sworkstyle (d : Bool) : Sworkstyle := ⟨code_config, d⟩

def code_ws : Node := .mk .workspace 5 (some "5") (some 5) none none
  [.mk .con 21 (some "untitled") none (some "code") none [] [],
    .mk .con 22 (some "untitled") none (some "code") none [] []] []

def st_sworkstyle : Sworkstyle := ⟨fun _ _ => "S", false⟩

def settings_ws : Node := .mk .workspace 7 (some "7") (some 7) none none
  [.mk .con 31 (some "Settings") none none none [] []] []

def empty_name_window : Node := .mk .con 41 (some "") none none none [] []

def empty_name_ws : Node := .mk .workspace 8 (some "8") (some 8) none none
  [empty_name_window] []

def scratch_ws : Node := .mk .workspace 13 (some "__i3_scratch") none none none [] []

def demo_ws : Node := .mk .workspace 14 (some "14") (some 14) none none [] []

def demo_root : Node := .mk .root 0 none none none none [scratch_ws, demo_ws] []

def float_ws : Node := .mk .workspace 12 (some "12") (some 12) none none [] []

def float_root : Node := .mk .root 0 none none none none [] [float_ws]

/-! ## Claims -/

/-- C1 (counterexample): a workspace with a name but no `num` makes
`update_workspace_name` return the error of lib.rs:182 — it does not
produce the single-space fallback label, and (with no windows) emits no
log at all, contradicting the claimed fallback-and-log behaviour. -/
theorem c1_counterexample :
    (plain_sworkstyle.update_workspace_name no_num_ws).2 =
      Except.error "Could not fetch index for: foo" ∧
    (plain_sworkstyle.update_workspace_name no_num_ws).1 = [] :=
  ⟨rfl, rfl⟩

/-- C1 (amended): for every workspace whose `num` is absent (and whose name
is present), `update_workspace_name` returns the error
`"Could not fetch index for: <name>"` instead of producing the
single-space fallback label; the fallback branch is never reached. -/
theorem c1_missing_num_returns_error :
    ∀ (s : Sworkstyle) (ws : Node) (curr : String),
      ws.name = some curr → ws.num = none →
      (s.update_workspace_name ws).2 =
        Except.error ("Could not fetch index for: " ++ curr) := by
  intro s ws curr h1 h2
  rw [update_workspace_name_no_num s ws curr h1 h2]

/-- Witness for C1 at the concrete workspace `no_num_ws`. -/
theorem c1_missing_num_returns_error_witness :
    no_num_ws.name = some "foo" ∧ no_num_ws.num = none ∧
    (plain_sworkstyle.update_workspace_name no_num_ws).2 =
      Except.error ("Could not fetch index for: " ++ "foo") :=
  ⟨rfl, rfl, c1_missing_num_returns_error plain_sworkstyle no_num_ws "foo" rfl rfl⟩

/-- C2 (counterexample): in a snapshot with a name-less first workspace and
a healthy second workspace, the cycle issues no rename command at all and
stops with the first workspace's error, even though the second workspace
alone would have been renamed — so a failure on one workspace does prevent
the update of its siblings. -/
theorem c2_counterexample :
    (plain_sworkstyle.update_workspaces two_ws_root).2.1 = [] ∧
    (plain_sworkstyle.update_workspaces two_ws_root).2.2 =
      Except.error "Could not get name for workspace with id: 10" ∧
    (plain_sworkstyle.update_workspace_name second_ws).2 =
      Except.ok ("2: ‭X‬ ", some (rename_cmd "sec" "2: ‭X‬ ")) :=
  ⟨rfl, rfl, rfl⟩

/-- C2 (amended): a failure while updating one workspace aborts the rest of
the cycle: `update_workspaces` propagates the first per-workspace error
through the `?` operator, so the remaining workspaces contribute neither
logs nor rename commands.  (`run` catches the propagated error and logs
it, so later cycles still happen.) -/
theorem c2_error_aborts_cycle :
    ∀ (s : Sworkstyle) (w : Node) (rest : List Node) (e : String),
      (s.update_workspace_name w).2 = Except.error e →
      s.update_workspaces_go (w :: rest) =
        ((s.update_workspace_name w).1, [], Except.error e) := by
  intro s w rest e h
  rcases hu : s.update_workspace_name w with ⟨logs, r⟩
  rw [hu] at h
  simp only at h
  subst h
  rw [Sworkstyle.update_workspaces_go, hu]

/-- Witness for C2 at the concrete pair of workspaces. -/
theorem c2_error_aborts_cycle_witness :
    (plain_sworkstyle.update_workspace_name no_name_ws).2 =
      Except.error "Could not get name for workspace with id: 10" ∧
    plain_sworkstyle.update_workspaces_go [no_name_ws, second_ws] =
      ((plain_sworkstyle.update_workspace_name no_name_ws).1, [],
        Except.error "Could not get name for workspace with id: 10") :=
  ⟨rfl, c2_error_aborts_cycle plain_sworkstyle no_name_ws [second_ws] _ rfl⟩

/-- C3 (counterexample): a `Con` node whose name is the empty string is
listed by `get_windows`, contradicting the claim that nodes with an empty
name are never listed. -/
theorem c3_counterexample :
    empty_name_window ∈ get_windows empty_name_ws ∧
      empty_name_window.name = some "" := by
  constructor
  · rw [show get_windows empty_name_ws = [empty_name_window] from rfl]
    exact List.mem_singleton.mpr rfl
  · rfl

/-- C3 (amended): `get_windows` returns exactly the nodes of type
`Container`/`FloatingContainer` whose name is **present** (an empty string
still qualifies), in depth-first pre-order visiting tiled children then
floating children recursively at every level; nodes with an absent name
are never listed. -/
theorem c3_windows_are_filtered_dfs :
    ∀ n : Node, get_windows n = (dfs_nodes n).filter window_filter :=
  get_windows_eq_filter

/-- C4: with `deduplicate` set the identity-pair list is collapsed to a set
keyed by the full pair and re-ordered by the pair ordering (identity, then
title); the rendered icon strings then get a consecutive-only second pass;
with the flag unset two identical windows keep two icons. -/
theorem c4_deduplicate :
    (∀ (l : List (Option String × Option String)) (x : Option String × Option String),
        x ∈ btreeCollect l ↔ x ∈ l) ∧
    (∀ l, List.Pairwise (fun a b => cmpPair a b = Ordering.lt) (btreeCollect l)) ∧
    (∀ l : List String, List.Chain' (fun a b => a ≠ b) (dedupConsecutive l)) ∧
    dedupConsecutive ["a", "b", "a"] = ["a", "b", "a"] ∧
    ((code_sworkstyle true).update_workspace_name code_ws).2 =
      Except.ok ("5: ‭C‬ ", some (rename_cmd "5" "5: ‭C‬ ")) ∧
    ((code_sworkstyle false).update_workspace_name code_ws).2 =
      Except.ok ("5: ‭C‬ ‭C‬ ", some (rename_cmd "5" "5: ‭C‬ ‭C‬ ")) :=
  ⟨fun l x => mem_btreeCollect x l, pairwise_btreeCollect,
    chain_ne_dedupConsecutive, by decide, rfl, rfl⟩

/-- C5: a rename command is issued if and only if the synthesized label
differs (exact string inequality) from the workspace's current name, and
then it is exactly the `rename workspace` command for that pair. -/
theorem c5_rename_iff_label_changed :
    ∀ (s : Sworkstyle) (ws : Node) (curr lbl : String) (cmd : Option String),
      ws.name = some curr →
      (s.update_workspace_name ws).2 = Except.ok (lbl, cmd) →
      cmd = (if curr = lbl then none else some (rename_cmd curr lbl)) := by
  intro s ws curr lbl cmd hn h
  obtain ⟨curr2, idx, hn2, hm⟩ := update_workspace_name_ok_inv s ws lbl cmd h
  rw [hn] at hn2
  injection hn2 with hcc
  subst hcc
  rw [update_workspace_name_ok s ws curr idx hn hm] at h
  simp only [Except.ok.injEq, Prod.mk.injEq] at h
  obtain ⟨hlbl, hcmd⟩ := h
  subst hlbl
  exact hcmd.symm

/-- Witness for C5 at the firefox example: the label changed, so the
command is issued. -/
theorem c5_rename_iff_label_changed_witness :
    ff_workspace.name = some "1" ∧
    (ff_sworkstyle.update_workspace_name ff_workspace).2 =
      Except.ok ("1: ‭🦊‬ ", some (rename_cmd "1" "1: ‭🦊‬ ")) ∧
    (some (rename_cmd "1" "1: ‭🦊‬ ") : Option String) =
      (if ("1" : String) = "1: ‭🦊‬ " then none
        else some (rename_cmd "1" "1: ‭🦊‬ ")) :=
  ⟨rfl, rfl,
    c5_rename_iff_label_changed ff_sworkstyle ff_workspace "1" "1: ‭🦊‬ "
      (some (rename_cmd "1" "1: ‭🦊‬ ")) rfl rfl⟩

/-- C6: the synthesized label is the canonical form: the bare index when no
icon exists, else index, colon-space, icons joined by single spaces, one
trailing space; concretely, the empty workspace of index 3 gets label "3",
and the firefox workspace of index 1 gets the fox label with the
directional-override marks. -/
theorem c6_label_canonical_form :
    (∀ (s : Sworkstyle) (ws : Node) (curr : String) (idx : Int) (lbl : String)
        (cmd : Option String),
        ws.name = some curr → ws.num = some idx →
        (s.update_workspace_name ws).2 = Except.ok (lbl, cmd) →
        lbl = candidate_label s ws idx ∧
        (s.rendered_icons ws = [] → lbl = toString idx) ∧
        (s.rendered_icons ws ≠ [] →
          lbl = toString idx ++ ": " ++ joinSpace (s.rendered_icons ws) ++ " ")) ∧
    (plain_sworkstyle.update_workspace_name empty3_ws).2 = Except.ok ("3", none) ∧
    (ff_sworkstyle.update_workspace_name ff_workspace).2 =
      Except.ok ("1: ‭🦊‬ ", some (rename_cmd "1" "1: ‭🦊‬ ")) := by
  refine ⟨?_, rfl, rfl⟩
  intro s ws curr idx lbl cmd hn hm h
  rw [update_workspace_name_ok s ws curr idx hn hm] at h
  simp only [Except.ok.injEq, Prod.mk.injEq] at h
  obtain ⟨hlbl, -⟩ := h
  subst hlbl
  refine ⟨rfl, ?_, ?_⟩
  · intro hren
    rw [candidate_label, if_pos hren]
  · intro hren
    rw [candidate_label, if_neg hren]

/-- Witness for C6 at the empty workspace of index 3. -/
theorem c6_label_canonical_form_witness :
    empty3_ws.name = some "3" ∧ empty3_ws.num = some (3 : Int) ∧
    (plain_sworkstyle.update_workspace_name empty3_ws).2 = Except.ok ("3", none) ∧
    ("3" = candidate_label plain_sworkstyle empty3_ws 3 ∧
      (plain_sworkstyle.rendered_icons empty3_ws = [] → "3" = toString (3 : Int)) ∧
      (plain_sworkstyle.rendered_icons empty3_ws ≠ [] →
        "3" = toString (3 : Int) ++ ": " ++
          joinSpace (plain_sworkstyle.rendered_icons empty3_ws) ++ " ")) :=
  ⟨rfl, rfl, rfl,
    c6_label_canonical_form.1 plain_sworkstyle empty3_ws "3" 3 "3" none rfl rfl rfl⟩

/-- C7 (counterexample): the window with no identity produces an
`error!`-level log entry, not a warning: the log stream of the update
contains an error and a debug entry and no warn entry. -/
theorem c7_counterexample :
    (st_sworkstyle.update_workspace_name settings_ws).1 =
      [(LogLevel.error, "No exact name found for window with title=Some(\"Settings\")"),
        (LogLevel.debug, rename_cmd "7" "7: ‭S‬ ")] ∧
    LogLevel.warn ∉ (st_sworkstyle.update_workspace_name settings_ws).1.map Prod.fst ∧
    (st_sworkstyle.update_workspace_name settings_ws).2 =
      Except.ok ("7: ‭S‬ ", some (rename_cmd "7" "7: ‭S‬ ")) := by
  refine ⟨rfl, ?_, rfl⟩
  decide

/-- C7 (amended): the identity is `window_class` if present, else `app_id`
if present, else absent; an absent identity logs an **error** (not a
warning) and the icon is fetched through the empty-identity/fallback-title
path, and the absence of an identity never fails the synthesis. -/
theorem c7_identity_resolution :
    (∀ (n : Node) (wp : WindowProperties) (c : String),
        n.window_properties = some wp → wp.«class» = some c →
        resolve_identity n = some c) ∧
    (∀ (n : Node) (wp : WindowProperties),
        n.window_properties = some wp → wp.«class» = none →
        resolve_identity n = n.app_id) ∧
    (∀ n : Node, n.window_properties = none → resolve_identity n = n.app_id) ∧
    (∀ (config : Config) (title : Option String),
        fetch_icon_step config (none, title) =
          ([(LogLevel.error,
              "No exact name found for window with title=" ++ debugOptString title)],
            config "" title)) ∧
    (∀ (s : Sworkstyle) (ws : Node) (curr : String) (idx : Int),
        ws.name = some curr → ws.num = some idx →
        ∃ lbl cmd, (s.update_workspace_name ws).2 = Except.ok (lbl, cmd)) := by
  refine ⟨?_, ?_, ?_, fun config title => rfl, ?_⟩
  · intro n wp c h1 h2
    cases happ : n.app_id <;> simp [resolve_identity, h1, h2, happ]
  · intro n wp h1 h2
    cases happ : n.app_id <;> simp [resolve_identity, h1, h2, happ]
  · intro n h1
    cases happ : n.app_id <;> simp [resolve_identity, h1, happ]
  · intro s ws curr idx hn hm
    refine ⟨candidate_label s ws idx,
      (if curr = candidate_label s ws idx then none
        else some (rename_cmd curr (candidate_label s ws idx))), ?_⟩
    rw [update_workspace_name_ok s ws curr idx hn hm]

/-- Witness for C7 at the settings workspace: the update succeeds even
though the single window has no identity. -/
theorem c7_identity_resolution_witness :
    settings_ws.name = some "7" ∧ settings_ws.num = some (7 : Int) ∧
    (∃ lbl cmd,
      (st_sworkstyle.update_workspace_name settings_ws).2 = Except.ok (lbl, cmd)) :=
  ⟨rfl, rfl, c7_identity_resolution.2.2.2.2 st_sworkstyle settings_ws "7" 7 rfl rfl⟩

/-- C8: the workspace traversal returns a node and stops exactly when the
node is a `Workspace` not named `"__i3_scratch"`; every returned node
satisfies that condition, so a scratchpad-named workspace is never
returned at any depth. -/
theorem c8_workspace_traversal :
    (∀ root m : Node, m ∈ get_workspaces_recurse root →
        m.node_type = NodeType.workspace ∧ m.name ≠ some "__i3_scratch") ∧
    (∀ n : Node, n.node_type = NodeType.workspace ∧ n.name ≠ some "__i3_scratch" →
        get_workspaces_recurse n = [n]) ∧
    (∀ n : Node, ¬(n.node_type = NodeType.workspace ∧ n.name ≠ some "__i3_scratch") →
        get_workspaces_recurse n = n.nodes.flatMap get_workspaces_recurse) :=
  ⟨fun root m hm => mem_get_workspaces_recurse m root hm,
    get_workspaces_recurse_stop, get_workspaces_recurse_descend⟩

/-- Witness for C8 at a snapshot holding the scratchpad and one real
workspace: the traversal returns only the real workspace. -/
theorem c8_workspace_traversal_witness :
    (demo_ws.node_type = NodeType.workspace ∧ demo_ws.name ≠ some "__i3_scratch") ∧
    get_workspaces_recurse demo_ws = [demo_ws] := by
  constructor
  · refine c8_workspace_traversal.1 demo_root demo_ws ?_
    rw [show get_workspaces_recurse demo_root = [demo_ws] from rfl]
    exact List.mem_singleton.mpr rfl
  · exact c8_workspace_traversal.2.1 demo_ws ⟨rfl, by decide⟩

/-- C9: every node the workspace traversal returns is reachable through
tiled (`nodes`) edges only, so a workspace reachable only through some
`floating_nodes` edge is never returned; concretely, a snapshot whose only
workspace hangs under `floating_nodes` yields no workspace at all. -/
theorem c9_floating_only_workspaces_never_returned :
    (∀ root m : Node, m ∈ get_workspaces_recurse root → m ∈ tiled_nodes root) ∧
    get_workspaces_recurse float_root = [] :=
  ⟨fun root m hm => get_workspaces_recurse_subset_tiled m root hm, rfl⟩

/-- Witness for C9: the returned workspace of the demo snapshot is indeed
among the tiled-reachable nodes. -/
theorem c9_floating_only_workspaces_never_returned_witness :
    demo_ws ∈ tiled_nodes demo_root := by
  refine c9_floating_only_workspaces_never_returned.1 demo_root demo_ws ?_
  rw [show get_workspaces_recurse demo_root = [demo_ws] from rfl]
  exact List.mem_singleton.mpr rfl

/-- C10: whenever `update_workspace_name` succeeds, the workspace number
was present and the produced label is `"<num>: <icons>"` or `"<num>"`,
never the single-space fallback `" "` — the fallback branch of
lib.rs:198-201 is unreachable. -/
theorem c10_fallback_unreachable :
    ∀ (s : Sworkstyle) (ws : Node) (lbl : String) (cmd : Option String),
      (s.update_workspace_name ws).2 = Except.ok (lbl, cmd) →
      ∃ idx, ws.num = some idx ∧
        (lbl = toString idx ∨ ∃ icons, lbl = toString idx ++ ": " ++ icons) ∧
        lbl ≠ " " := by
  intro s ws lbl cmd h
  obtain ⟨curr, idx, hn, hm⟩ := update_workspace_name_ok_inv s ws lbl cmd h
  rw [update_workspace_name_ok s ws curr idx hn hm] at h
  simp only [Except.ok.injEq, Prod.mk.injEq] at h
  obtain ⟨hlbl, -⟩ := h
  subst hlbl
  refine ⟨idx, hm, ?_, candidate_label_ne_space s ws idx⟩
  by_cases hren : s.rendered_icons ws = []
  · left
    rw [candidate_label, if_pos hren]
  · right
    refine ⟨joinSpace (s.rendered_icons ws) ++ " ", ?_⟩
    rw [candidate_label, if_neg hren, String.append_assoc]

/-- Witness for C10 at the empty workspace of index 3. -/
theorem c10_fallback_unreachable_witness :
    (plain_sworkstyle.update_workspace_name empty3_ws).2 = Except.ok ("3", none) ∧
    (∃ idx, empty3_ws.num = some idx ∧
      ("3" = toString idx ∨ ∃ icons, "3" = toString idx ++ ": " ++ icons) ∧
      ("3" : String) ≠ " ") :=
  ⟨rfl, c10_fallback_unreachable plain_sworkstyle empty3_ws "3" none rfl⟩
